import Mathlib

/-
Shallow embedding of the rust-chip8 emulator core.

Sources embedded here:
  src/src/emulator/basics.rs    -- constants and primitive types
  src/src/emulator/program.rs   -- RawOp, Instruction, Instruction::from_rawop
  src/src/emulator/vm.rs        -- VirtualMachine state and execute_instruction
  src/src/emulator/executor.rs  -- the 60 Hz timer loop body

Modelling conventions:
  - u8 / u16 machine integers are Nat with explicit `% 256` / `% 65536`
    where the Rust code wraps (wrapping_add, wrapping_sub, u8 shifts,
    release-mode integer overflow).
  - Rust panics (stack overflow / underflow, array index out of range,
    unimplemented machine-code routines, invalid opcodes) are modelled as
    `Except Err` errors: they are all fatal, no state is observable after.
  - Register indices are `Fin 16`: every Instruction operand register comes
    out of a 4-bit opcode nibble, so the defensive `assert!(reg.0 < 16)` in
    VirtualMachine::register is statically impossible to trip, exactly as
    the spec notes.
  - The `VMInterface` fields (delay_timer, sound_timer, key_down) live
    inline in the VM record; the Mutex critical sections of the two loops
    are modelled as atomic state transformations.
  - The display sink (the `Display` trait) is presentation-only and never
    feeds back into the machine; only the authoritative `logical_display`
    is modelled.
  - The random byte drawn by `rand::thread_rng().gen_range(0, 255)` in the
    Rand instruction is an explicit oracle argument `rnd` of `execute`;
    `randPossible` records which values that call can actually produce
    (gen_range has an exclusive upper bound).
-/

namespace Chip8

/-! Constants from src/src/emulator/basics.rs -/

def MEMORY_SIZE : Nat := 4096
def SCREEN_WIDTH : Nat := 64
def SCREEN_HEIGHT : Nat := 32
def FONT_OFFSET : Nat := 0
def STACK_DEPTH : Nat := 16

/-- A 4-bit register index (program.rs `Register`, always an opcode nibble). -/
abbrev Reg := Fin 16

/-- Fatal error conditions (Rust panics in vm.rs / program.rs). -/
inductive Err where
  | stackOverflow
  | stackUnderflow
  | invalidOpcode
  | unsupportedRoutine
  | memOutOfRange
deriving DecidableEq

/-- program.rs `Instruction` enum, verbatim constructor list. -/
inductive Instruction where
  | Noop
  | MachineCodeRoutine (addr : Nat)
  | ClearDisplay
  | ReturnSubroutine
  | Jump (addr : Nat)
  | CallSubroutine (addr : Nat)
  | IfNotEqualConst (vx : Reg) (n : Nat)
  | IfEqualConst (vx : Reg) (n : Nat)
  | IfNotEqual (vx vy : Reg)
  | SetConst (vx : Reg) (n : Nat)
  | AddConst (vx : Reg) (n : Nat)
  | Set (vx vy : Reg)
  | Or (vx vy : Reg)
  | And (vx vy : Reg)
  | Xor (vx vy : Reg)
  | Add (vx vy : Reg)
  | Sub (vx vy : Reg)
  | RightShift (vx : Reg)
  | NegSub (vx vy : Reg)
  | LeftShift (vx : Reg)
  | IfEqual (vx vy : Reg)
  | SetI (addr : Nat)
  | JumpAdd (addr : Nat)
  | Rand (vx : Reg) (n : Nat)
  | Draw (vx vy : Reg) (n : Nat)
  | IfNotKey (vx : Reg)
  | IfKey (vx : Reg)
  | GetDelayTimer (vx : Reg)
  | WaitKey (vx : Reg)
  | SetDelayTimer (vx : Reg)
  | SetSoundTimer (vx : Reg)
  | AddToI (vx : Reg)
  | SpriteAddr (vx : Reg)
  | Decimal (vx : Reg)
  | StoreRegisters (vx : Reg)
  | LoadRegisters (vx : Reg)
deriving DecidableEq

/-- program.rs `RawOp`: the four 4-bit nibble fields of a big-endian opcode. -/
structure RawOp where
  a : Fin 16
  b : Fin 16
  c : Fin 16
  d : Fin 16
deriving DecidableEq

/-- program.rs NNN!: 12-bit address operand. -/
def NNNOp (op : RawOp) : Nat := op.b.val * 256 + op.c.val * 16 + op.d.val

/-- program.rs NN!: byte operand. -/
def NNOp (op : RawOp) : Nat := op.c.val * 16 + op.d.val

/-- program.rs N!: low-nibble operand. -/
def NOp (op : RawOp) : Nat := op.d.val

/-- program.rs `Instruction::from_rawop`, arm for arm in match order.
The final catch-all panic is the invalidOpcode error. -/
def from_rawop (op : RawOp) : Except Err Instruction :=
  if op.a = 0 ∧ op.b = 0 ∧ op.c = 0 ∧ op.d = 0 then .ok .Noop
  else if op.a = 0 ∧ op.b = 0 ∧ op.c = 14 ∧ op.d = 0 then .ok .ClearDisplay
  else if op.a = 0 ∧ op.b = 0 ∧ op.c = 14 ∧ op.d = 14 then .ok .ReturnSubroutine
  else if op.a = 0 ∧ 2 ≤ op.b.val then .ok (.MachineCodeRoutine (NNNOp op))
  else if op.a = 1 then .ok (.Jump (NNNOp op))
  else if op.a = 2 then .ok (.CallSubroutine (NNNOp op))
  else if op.a = 3 then .ok (.IfNotEqualConst op.b (NNOp op))
  else if op.a = 4 then .ok (.IfEqualConst op.b (NNOp op))
  else if op.a = 5 ∧ op.d = 0 then .ok (.IfNotEqual op.b op.c)
  else if op.a = 6 then .ok (.SetConst op.b (NNOp op))
  else if op.a = 7 then .ok (.AddConst op.b (NNOp op))
  else if op.a = 8 ∧ op.d = 0 then .ok (.Set op.b op.c)
  else if op.a = 8 ∧ op.d = 1 then .ok (.Or op.b op.c)
  else if op.a = 8 ∧ op.d = 2 then .ok (.And op.b op.c)
  else if op.a = 8 ∧ op.d = 3 then .ok (.Xor op.b op.c)
  else if op.a = 8 ∧ op.d = 4 then .ok (.Add op.b op.c)
  else if op.a = 8 ∧ op.d = 5 then .ok (.Sub op.b op.c)
  else if op.a = 8 ∧ op.d = 6 then .ok (.RightShift op.b)
  else if op.a = 8 ∧ op.d = 7 then .ok (.NegSub op.b op.c)
  else if op.a = 8 ∧ op.d = 14 then .ok (.LeftShift op.b)
  else if op.a = 9 ∧ op.d = 0 then .ok (.IfEqual op.b op.c)
  else if op.a = 10 then .ok (.SetI (NNNOp op))
  else if op.a = 11 then .ok (.JumpAdd (NNNOp op))
  else if op.a = 12 then .ok (.Rand op.b (NNOp op))
  else if op.a = 13 then .ok (.Draw op.b op.c (NOp op))
  else if op.a = 14 ∧ op.c = 9 ∧ op.d = 14 then .ok (.IfNotKey op.b)
  else if op.a = 14 ∧ op.c = 10 ∧ op.d = 1 then .ok (.IfKey op.b)
  else if op.a = 15 ∧ op.c = 0 ∧ op.d = 7 then .ok (.GetDelayTimer op.b)
  else if op.a = 15 ∧ op.c = 0 ∧ op.d = 10 then .ok (.WaitKey op.b)
  else if op.a = 15 ∧ op.c = 1 ∧ op.d = 5 then .ok (.SetDelayTimer op.b)
  else if op.a = 15 ∧ op.c = 1 ∧ op.d = 8 then .ok (.SetSoundTimer op.b)
  else if op.a = 15 ∧ op.c = 1 ∧ op.d = 14 then .ok (.AddToI op.b)
  else if op.a = 15 ∧ op.c = 2 ∧ op.d = 9 then .ok (.SpriteAddr op.b)
  else if op.a = 15 ∧ op.c = 3 ∧ op.d = 3 then .ok (.Decimal op.b)
  else if op.a = 15 ∧ op.c = 5 ∧ op.d = 5 then .ok (.StoreRegisters op.b)
  else if op.a = 15 ∧ op.c = 6 ∧ op.d = 5 then .ok (.LoadRegisters op.b)
  else .error .invalidOpcode

/-- Modelled from the spec: `Instruction::from_16bit` is referenced from
vm.rs but its definition file is not under src/. Spec section 4.1: the two
bytes of a big-endian opcode are split into four 4-bit fields, which are
then dispatched (the dispatch itself is `from_rawop`, which is in src/). -/
def from_16bit (hi lo : Nat) : Except Err Instruction :=
  from_rawop ⟨⟨hi / 16 % 16, by omega⟩, ⟨hi % 16, by omega⟩,
              ⟨lo / 16 % 16, by omega⟩, ⟨lo % 16, by omega⟩⟩

/-! Machine state: vm.rs `VirtualMachine` with the `VMInterface` fields
(delay_timer, sound_timer, key_down) inlined. -/

@[ext]
structure VM where
  program_counter : Nat
  stack : List Nat
  registers : Reg → Nat
  register_i : Nat
  memory : Nat → Nat
  logical_display : Nat → Nat → Bool
  delay_timer : Nat
  sound_timer : Nat
  key_down : Option Nat

/-- vm.rs `set_vf`: write the flags register (register 15). -/
def setVf (vm : VM) (v : Nat) : VM :=
  { vm with registers := Function.update vm.registers 15 v }

/-- The extra `pc += 2` a successful skip condition performs. -/
def skipNext (vm : VM) : VM :=
  { vm with program_counter := (vm.program_counter + 2) % 65536 }

/-- vm.rs `draw_pixel`: toggle one logical pixel; if the toggle cleared a
previously set pixel, set the flags register to 1. -/
def draw_pixel (vm : VM) (x y : Nat) : VM :=
  let was := vm.logical_display x y
  let vm2 : VM := { vm with logical_display := fun a b =>
      if a = x ∧ b = y then !vm.logical_display a b else vm.logical_display a b }
  if was then setVf vm2 1 else vm2

/-- vm.rs `draw_pixels` restricted to the logical display (the forwarding of
the same coordinate list to the interface display sink is presentation-only). -/
def draw_pixels (vm : VM) (ps : List (Nat × Nat)) : VM :=
  ps.foldl (fun v p => draw_pixel v p.1 p.2) vm

/-- One sprite row of vm.rs `draw_shape`: the set bits of `row` (tested
MSB-first with mask `128 >> x_off`), mapped to display coordinates. The
`% 256` is the u8 wrap-around of `x0 + x_off` / `y0 + y_off`. -/
def rowPixels (x0 y0 yo row : Nat) : List (Nat × Nat) :=
  (List.range 8).filterMap (fun xo =>
    if 0 < row &&& (128 >>> xo) then
      some (((x0 + xo) % 256) % SCREEN_WIDTH, ((y0 + yo) % 256) % SCREEN_HEIGHT)
    else none)

/-- All coordinates pushed by the row loop of vm.rs `draw_shape`, in order. -/
def spritePixels (x0 y0 : Nat) : Nat → List Nat → List (Nat × Nat)
  | _, [] => []
  | yo, row :: rest => rowPixels x0 y0 yo row ++ spritePixels x0 y0 (yo + 1) rest

/-- The sprite-row fetch loop of vm.rs `draw_shape`: read `n` bytes starting
at address `i`; a read at or past MEMORY_SIZE is a fatal index panic. -/
def readRows (mem : Nat → Nat) : Nat → Nat → Except Err (List Nat)
  | _, 0 => .ok []
  | i, n + 1 =>
    if i < MEMORY_SIZE then
      match readRows mem (i + 1) n with
      | .ok rest => .ok (mem i :: rest)
      | .error e => .error e
    else .error .memOutOfRange

/-- vm.rs `draw_shape`: reset the flags register, read the register values
for the corner, fetch the sprite rows, toggle every set bit. -/
def draw_shape (vm : VM) (vx vy : Reg) (n : Nat) : Except Err VM :=
  let vm1 := setVf vm 0
  let x0 := vm1.registers vx
  let y0 := vm1.registers vy
  match readRows vm1.memory vm1.register_i n with
  | .error e => .error e
  | .ok rows => .ok (draw_pixels vm1 (spritePixels x0 y0 0 rows))

/-- The set of bytes `rand::thread_rng().gen_range(0, 255)` can draw for the
Rand instruction: the upper bound of gen_range is exclusive. -/
def randPossible (r : Nat) : Prop := r < 255

/-- vm.rs `execute_instruction`. The program counter is advanced by 2 first
(16-bit wrap-around), then the instruction effect is applied. `rnd` is the
byte drawn from the thread RNG, used only by Rand. -/
def execute (rnd : Nat) (instr : Instruction) (vm0 : VM) : Except Err VM :=
  let vm : VM := { vm0 with program_counter := (vm0.program_counter + 2) % 65536 }
  match instr with
  | .CallSubroutine addr =>
    if STACK_DEPTH ≤ vm.stack.length then .error .stackOverflow
    else .ok { vm with stack := vm.program_counter :: vm.stack, program_counter := addr }
  | .ReturnSubroutine =>
    match vm.stack with
    | [] => .error .stackUnderflow
    | a :: rest => .ok { vm with program_counter := a, stack := rest }
  | .Jump addr => .ok { vm with program_counter := addr }
  | .JumpAdd addr => .ok { vm with program_counter := (addr + vm.registers 0) % 65536 }
  | .IfNotEqualConst vx n => .ok (if vm.registers vx = n then skipNext vm else vm)
  | .IfEqualConst vx n => .ok (if vm.registers vx ≠ n then skipNext vm else vm)
  | .IfNotEqual vx vy => .ok (if vm.registers vx = vm.registers vy then skipNext vm else vm)
  | .IfEqual vx vy => .ok (if vm.registers vx ≠ vm.registers vy then skipNext vm else vm)
  | .SetConst vx n => .ok { vm with registers := Function.update vm.registers vx n }
  | .AddConst vx n =>
    .ok { vm with registers := Function.update vm.registers vx ((vm.registers vx + n) % 256) }
  | .Set vx vy => .ok { vm with registers := Function.update vm.registers vx (vm.registers vy) }
  | .Or vx vy =>
    .ok { vm with registers :=
      Function.update vm.registers vx (vm.registers vx ||| vm.registers vy) }
  | .And vx vy =>
    .ok { vm with registers :=
      Function.update vm.registers vx (vm.registers vx &&& vm.registers vy) }
  | .Xor vx vy =>
    .ok { vm with registers :=
      Function.update vm.registers vx (vm.registers vx ^^^ vm.registers vy) }
  | .Add vx vy =>
    let a := vm.registers vx
    let b := vm.registers vy
    let vm1 := setVf vm (if 256 ≤ a + b then 1 else 0)
    .ok { vm1 with registers := Function.update vm1.registers vx ((a + b) % 256) }
  | .Sub vx vy =>
    let a := vm.registers vx
    let b := vm.registers vy
    let vm1 := setVf vm (if b < a then 1 else 0)
    .ok { vm1 with registers := Function.update vm1.registers vx ((a + 256 - b) % 256) }
  | .NegSub vx vy =>
    let a := vm.registers vx
    let b := vm.registers vy
    let vm1 := setVf vm (if a < b then 1 else 0)
    .ok { vm1 with registers := Function.update vm1.registers vx ((b + 256 - a) % 256) }
  | .RightShift vx =>
    let a := vm.registers vx
    let vm1 := setVf vm (a &&& 1)
    .ok { vm1 with registers := Function.update vm1.registers vx (a >>> 1) }
  | .LeftShift vx =>
    let a := vm.registers vx
    let vm1 := setVf vm (if 0 < a &&& 128 then 1 else 0)
    .ok { vm1 with registers := Function.update vm1.registers vx ((a <<< 1) % 256) }
  | .IfNotKey vx =>
    let target := vm.registers vx
    .ok (match vm.key_down with
      | some k => if k = target then skipNext vm else vm
      | none => vm)
  | .IfKey vx =>
    let target := vm.registers vx
    .ok (match vm.key_down with
      | some k => if k ≠ target then skipNext vm else vm
      | none => skipNext vm)
  | .WaitKey vx =>
    match vm.key_down with
    | some k => .ok { vm with registers := Function.update vm.registers vx k }
    | none => .ok { vm with program_counter := (vm.program_counter + 65536 - 2) % 65536 }
  | .Draw vx vy n => draw_shape vm vx vy n
  | .ClearDisplay => .ok { vm with logical_display := fun _ _ => false }
  | .SpriteAddr vx => .ok { vm with register_i := FONT_OFFSET + vm.registers vx * 5 }
  | .GetDelayTimer vx =>
    .ok { vm with registers := Function.update vm.registers vx vm.delay_timer }
  | .SetDelayTimer vx => .ok { vm with delay_timer := vm.registers vx }
  | .SetSoundTimer vx => .ok { vm with sound_timer := vm.registers vx }
  | .SetI addr => .ok { vm with register_i := addr }
  | .AddToI vx => .ok { vm with register_i := (vm.register_i + vm.registers vx) % 65536 }
  | .Decimal vx =>
    let i := vm.register_i
    let v := vm.registers vx
    if i + 2 < MEMORY_SIZE then
      .ok { vm with memory :=
        Function.update (Function.update (Function.update vm.memory i (v / 100))
          (i + 1) (v / 10 % 10)) (i + 2) (v % 10) }
    else .error .memOutOfRange
  | .StoreRegisters vx =>
    let i := vm.register_i
    if i + vx.val < MEMORY_SIZE then
      let mem2 := (List.range (vx.val + 1)).foldl
        (fun m k => if h : k < 16 then Function.update m (i + k) (vm.registers ⟨k, h⟩) else m)
        vm.memory
      .ok { vm with memory := mem2 }
    else .error .memOutOfRange
  | .LoadRegisters vx =>
    let i := vm.register_i
    if i + vx.val < MEMORY_SIZE then
      let regs2 := (List.range (vx.val + 1)).foldl
        (fun r k => if h : k < 16 then Function.update r ⟨k, h⟩ (vm.memory (i + k)) else r)
        vm.registers
      .ok { vm with registers := regs2 }
    else .error .memOutOfRange
  | .Noop => .ok vm
  | .Rand vx n => .ok { vm with registers := Function.update vm.registers vx (rnd &&& n) }
  | .MachineCodeRoutine _ => .error .unsupportedRoutine

/-! Machine creation: vm.rs `VirtualMachine::new` / `setup_memory`. -/

/-- The 80-byte font table literal of vm.rs `setup_memory`. -/
def FONT_SPRITES : List Nat :=
  [0xF0, 0x90, 0x90, 0x90, 0xF0, 0x20, 0x60, 0x20, 0x20, 0x70, 0xF0, 0x10, 0xF0, 0x80,
   0xF0, 0xF0, 0x10, 0xF0, 0x10, 0xF0, 0x90, 0x90, 0xF0, 0x10, 0x10, 0xF0, 0x80, 0xF0,
   0x10, 0xF0, 0xF0, 0x80, 0xF0, 0x90, 0xF0, 0xF0, 0x10, 0x20, 0x40, 0x40, 0xF0, 0x90,
   0xF0, 0x90, 0xF0, 0xF0, 0x90, 0xF0, 0x10, 0xF0, 0xF0, 0x90, 0xF0, 0x90, 0x90, 0xE0,
   0x90, 0xE0, 0x90, 0xE0, 0xF0, 0x80, 0x80, 0x80, 0xF0, 0xE0, 0x90, 0x90, 0x90, 0xE0,
   0xF0, 0x80, 0xF0, 0x80, 0xF0, 0xF0, 0x80, 0xF0, 0x80, 0x80]

/-- The zip-with-skip write pattern of `setup_memory`: write the bytes at
consecutive addresses starting at `i`, stopping when the 4096 memory cells
run out (bytes beyond the end are dropped, as zip truncates). -/
def writeList (mem : Nat → Nat) : Nat → List Nat → (Nat → Nat)
  | _, [] => mem
  | i, b :: rest =>
    if i < MEMORY_SIZE then writeList (Function.update mem i b) (i + 1) rest else mem

/-- vm.rs `setup_memory`: zeroed memory, font table at FONT_OFFSET, program
bytes at 0x200. -/
def setup_memory (program : List Nat) : Nat → Nat :=
  writeList (writeList (fun _ => 0) FONT_OFFSET FONT_SPRITES) 0x200 program

/-- vm.rs `VirtualMachine::new`. -/
def newVM (program : List Nat) : VM :=
  { program_counter := 0x200
    stack := []
    registers := fun _ => 0
    register_i := 0
    memory := setup_memory program
    logical_display := fun _ _ => false
    delay_timer := 0
    sound_timer := 0
    key_down := none }

/-! The 60 Hz timer loop body: executor.rs `run_concurrent_until`. -/

/-- One iteration of the timer loop critical section: decrement each timer
by 1 if it is above 0, both fields in the same lock acquisition. -/
def timerTick (vm : VM) : VM :=
  { vm with
    delay_timer := if 0 < vm.delay_timer then vm.delay_timer - 1 else vm.delay_timer
    sound_timer := if 0 < vm.sound_timer then vm.sound_timer - 1 else vm.sound_timer }

/-- The operations that touch the two timer fields: a timer-loop tick, or the
instruction loop executing SetDelayTimer / SetSoundTimer with a register
value `v`. Each runs under the single Interface lock, so an execution is an
arbitrary interleaving, i.e. a list of these atomic operations. -/
inductive TimerOp where
  | tick
  | setDelay (v : Nat)
  | setSound (v : Nat)

/-- A TimerOp write always carries an 8-bit register value. -/
def TimerOp.WF : TimerOp → Prop
  | .tick => True
  | .setDelay v => v ≤ 255
  | .setSound v => v ≤ 255

/-- Apply a sequence of timer operations to the machine. The two set
operations are the timer-field effects of execute on SetDelayTimer and
SetSoundTimer. -/
def runTimerOps (vm : VM) : List TimerOp → VM
  | [] => vm
  | .tick :: rest => runTimerOps (timerTick vm) rest
  | .setDelay v :: rest => runTimerOps { vm with delay_timer := v } rest
  | .setSound v :: rest => runTimerOps { vm with sound_timer := v } rest

/-- Run a list of instructions through `execute`, stopping at the first
fatal error (used to express reachability from a freshly created machine). -/
def execList (rnd : Nat) : List Instruction → VM → Except Err VM
  | [], vm => .ok vm
  | i :: rest, vm =>
    match execute rnd i vm with
    | .ok vm2 => execList rnd rest vm2
    | .error e => .error e

/-- Discriminator for Except results over VM (VM itself carries functions,
so results are compared through projections). -/
def isOk : Except Err VM → Bool
  | .ok _ => true
  | .error _ => false

deriving instance DecidableEq for Except

/-! Spec-side reference decoder, used to check the decoder against the
dispatch table of spec section 4.1. -/

/-- The dispatch table of spec section 4.1, row by row over the four 4-bit
fields (a, b, c, d) of a big-endian opcode, with the operand formulas of the
table header (N = b·256 + c·16 + d, NN = c·16 + d, Nib = d, x = second
nibble, y = third nibble). A nibble pattern matching no row is the fatal
invalid-opcode failure; pattern (0, 2-15, any, any) is the machine-code
routine variant, whose execution is fatal. -/
def spec_table (a b c d : Fin 16) : Except Err Instruction :=
  let n : Nat := b.val * 256 + c.val * 16 + d.val
  let nn : Nat := c.val * 16 + d.val
  match a.val, b.val, c.val, d.val with
  | 0, 0, 0, 0 => .ok .Noop
  | 0, 0, 14, 0 => .ok .ClearDisplay
  | 0, 0, 14, 14 => .ok .ReturnSubroutine
  | 0, bb, _, _ => if 2 ≤ bb then .ok (.MachineCodeRoutine n) else .error .invalidOpcode
  | 1, _, _, _ => .ok (.Jump n)
  | 2, _, _, _ => .ok (.CallSubroutine n)
  | 3, _, _, _ => .ok (.IfNotEqualConst b nn)
  | 4, _, _, _ => .ok (.IfEqualConst b nn)
  | 5, _, _, 0 => .ok (.IfNotEqual b c)
  | 6, _, _, _ => .ok (.SetConst b nn)
  | 7, _, _, _ => .ok (.AddConst b nn)
  | 8, _, _, 0 => .ok (.Set b c)
  | 8, _, _, 1 => .ok (.Or b c)
  | 8, _, _, 2 => .ok (.And b c)
  | 8, _, _, 3 => .ok (.Xor b c)
  | 8, _, _, 4 => .ok (.Add b c)
  | 8, _, _, 5 => .ok (.Sub b c)
  | 8, _, _, 6 => .ok (.RightShift b)
  | 8, _, _, 7 => .ok (.NegSub b c)
  | 8, _, _, 14 => .ok (.LeftShift b)
  | 9, _, _, 0 => .ok (.IfEqual b c)
  | 10, _, _, _ => .ok (.SetI n)
  | 11, _, _, _ => .ok (.JumpAdd n)
  | 12, _, _, _ => .ok (.Rand b nn)
  | 13, _, _, _ => .ok (.Draw b c d.val)
  | 14, _, 9, 14 => .ok (.IfNotKey b)
  | 14, _, 10, 1 => .ok (.IfKey b)
  | 15, _, 0, 7 => .ok (.GetDelayTimer b)
  | 15, _, 0, 10 => .ok (.WaitKey b)
  | 15, _, 1, 5 => .ok (.SetDelayTimer b)
  | 15, _, 1, 8 => .ok (.SetSoundTimer b)
  | 15, _, 1, 14 => .ok (.AddToI b)
  | 15, _, 2, 9 => .ok (.SpriteAddr b)
  | 15, _, 3, 3 => .ok (.Decimal b)
  | 15, _, 5, 5 => .ok (.StoreRegisters b)
  | 15, _, 6, 5 => .ok (.LoadRegisters b)
  | _, _, _, _ => .error .invalidOpcode

/-- The spec-side decoder over two raw bytes: split the big-endian opcode
into its four 4-bit fields, then apply the table of spec section 4.1. -/
def decode_spec (hi lo : Nat) : Except Err Instruction :=
  spec_table ⟨hi / 16 % 16, by omega⟩ ⟨hi % 16, by omega⟩
    ⟨lo / 16 % 16, by omega⟩ ⟨lo % 16, by omega⟩

/-- Exhaustive agreement between the implementation decoder and the table
of spec section 4.1, nibble pattern by nibble pattern. -/
theorem from_rawop_eq_spec_table (op : RawOp) :
    from_rawop op = spec_table op.a op.b op.c op.d := by
  obtain ⟨a, b, c, d⟩ := op
  fin_cases a <;>
    first
      | rfl
      | (fin_cases d <;> rfl)
      | (fin_cases c <;> first
          | rfl
          | (fin_cases d <;> rfl))
      | (fin_cases b <;> first
          | rfl
          | (fin_cases c <;> first
              | rfl
              | (fin_cases d <;> rfl)))

/-- Claim C5: for every pair of input bytes, decoding is a total function
yielding exactly one instruction variant, the one given by the dispatch
table of spec section 4.1 with its operand formulas; pattern (0, 2-15, any,
any) decodes to the machine-code-routine variant whose execution is fatal
(unsupported), every unmatched byte pair is the fatal invalid-opcode
failure, and no byte pair is silently dropped. -/
theorem C5_decode_total :
    (∀ hi lo : Nat, from_16bit hi lo = decode_spec hi lo) ∧
    (∀ rnd vm addr, execute rnd (.MachineCodeRoutine addr) vm = .error .unsupportedRoutine) := by
  constructor
  · intro hi lo
    exact from_rawop_eq_spec_table _
  · intro rnd vm addr
    rfl

/-! Claim C1: key-test skip conditions. -/

/-- The condition a pressed key exists and equals reg[x]. -/
def keyMatches (vm : VM) (x : Reg) : Bool :=
  match vm.key_down with
  | some k => decide (k = vm.registers x)
  | none => false

/-- Claim C1, counterexample to the stated direction: with key 5 pressed and
reg[0] = 5, the instruction decoded from nibble pattern (14, 0, 10, 1) does
NOT skip (net program-counter advance 2, not 4), contradicting the claim
that this pattern skips when a key is pressed and equals reg[x]. -/
def c1_vm : VM :=
  { newVM [] with key_down := some 5, registers := Function.update (newVM []).registers 0 5 }

/-- Claim C1 is false as stated: at the concrete machine c1_vm (key 5
pressed, reg[0] = 5), the (14, 0, 10, 1) instruction advances the program
counter by 2, not by 4 as the claim requires. -/
theorem C1_counterexample :
    from_rawop ⟨14, 0, 10, 1⟩ = .ok (.IfKey 0) ∧
    keyMatches c1_vm 0 = true ∧
    (execute 0 (.IfKey 0) c1_vm).map (fun v => v.program_counter) = .ok 0x202 ∧
    (0x202 : Nat) ≠ 0x200 + 4 := by
  refine ⟨rfl, rfl, rfl, by decide⟩

/-- Claim C1, amended: the instruction decoded from nibble pattern
(14, x, 9, 14) skips the next instruction (net program-counter advance 4
instead of 2) if and only if a key is currently pressed and equals reg[x];
the instruction decoded from (14, x, 10, 1) skips if and only if no key is
pressed or the pressed key differs from reg[x]; no register or memory (or
any other machine state) changes. -/
theorem C1_key_skip (rnd : Nat) (vm : VM) (x : Reg) :
    from_rawop ⟨14, x, 9, 14⟩ = .ok (.IfNotKey x) ∧
    from_rawop ⟨14, x, 10, 1⟩ = .ok (.IfKey x) ∧
    execute rnd (.IfNotKey x) vm = .ok { vm with program_counter :=
      (if keyMatches vm x then (vm.program_counter + 4) % 65536
       else (vm.program_counter + 2) % 65536) } ∧
    execute rnd (.IfKey x) vm = .ok { vm with program_counter :=
      (if keyMatches vm x then (vm.program_counter + 2) % 65536
       else (vm.program_counter + 4) % 65536) } := by
  obtain ⟨pc, st, regs, ri, mem, disp, dt, so, kd⟩ := vm
  refine ⟨rfl, rfl, ?_, ?_⟩ <;> cases kd with
  | none =>
    simp [execute, keyMatches, skipNext, VM.mk.injEq]
  | some k =>
    rcases eq_or_ne k (regs x) with hk | hk
    · subst hk
      simp [execute, keyMatches, skipNext, VM.mk.injEq]
    · simp [execute, keyMatches, skipNext, hk, VM.mk.injEq]

/-! Claim C2: arithmetic and shift instructions, flags register semantics. -/

/-- Claim C2: for 8-bit register values (and a destination register x other
than the flags register itself): Add sets the flag register (register 15)
to 1 iff the unsigned sum exceeds 255 (else 0) and stores the sum mod 256
in reg[x]; Sub sets the flag to 1 iff reg[x] > reg[y] (strict) and stores
(reg[x] - reg[y]) mod 256; NegSub sets the flag to 1 iff reg[y] > reg[x]
and stores (reg[y] - reg[x]) mod 256; RightShift sets the flag to the
lowest bit of reg[x] and stores reg[x] / 2; LeftShift sets the flag to the
highest bit of reg[x] and stores (reg[x]·2) mod 256; Or/And/Xor/Set store
the corresponding bitwise result or copy in reg[x]; and any such store to
reg[x] leaves the flag register unchanged. -/
theorem C2_arithmetic_flags (rnd : Nat) (vm : VM) (x y : Reg) (hx : x ≠ 15)
    (ha : vm.registers x ≤ 255) (hb : vm.registers y ≤ 255) :
    (execute rnd (.Add x y) vm = .ok { vm with
      program_counter := (vm.program_counter + 2) % 65536,
      registers := Function.update (Function.update vm.registers 15
        (if 255 < vm.registers x + vm.registers y then 1 else 0)) x
        ((vm.registers x + vm.registers y) % 256) }) ∧
    (execute rnd (.Sub x y) vm = .ok { vm with
      program_counter := (vm.program_counter + 2) % 65536,
      registers := Function.update (Function.update vm.registers 15
        (if vm.registers y < vm.registers x then 1 else 0)) x
        (((vm.registers x : ℤ) - vm.registers y) % 256).toNat }) ∧
    (execute rnd (.NegSub x y) vm = .ok { vm with
      program_counter := (vm.program_counter + 2) % 65536,
      registers := Function.update (Function.update vm.registers 15
        (if vm.registers x < vm.registers y then 1 else 0)) x
        (((vm.registers y : ℤ) - vm.registers x) % 256).toNat }) ∧
    (execute rnd (.RightShift x) vm = .ok { vm with
      program_counter := (vm.program_counter + 2) % 65536,
      registers := Function.update (Function.update vm.registers 15
        (vm.registers x % 2)) x (vm.registers x / 2) }) ∧
    (execute rnd (.LeftShift x) vm = .ok { vm with
      program_counter := (vm.program_counter + 2) % 65536,
      registers := Function.update (Function.update vm.registers 15
        (if (vm.registers x).testBit 7 then 1 else 0)) x
        ((vm.registers x * 2) % 256) }) ∧
    (execute rnd (.Or x y) vm = .ok { vm with
      program_counter := (vm.program_counter + 2) % 65536,
      registers := Function.update vm.registers x
        (vm.registers x ||| vm.registers y) }) ∧
    (execute rnd (.And x y) vm = .ok { vm with
      program_counter := (vm.program_counter + 2) % 65536,
      registers := Function.update vm.registers x
        (vm.registers x &&& vm.registers y) }) ∧
    (execute rnd (.Xor x y) vm = .ok { vm with
      program_counter := (vm.program_counter + 2) % 65536,
      registers := Function.update vm.registers x
        (vm.registers x ^^^ vm.registers y) }) ∧
    (execute rnd (.Set x y) vm = .ok { vm with
      program_counter := (vm.program_counter + 2) % 65536,
      registers := Function.update vm.registers x (vm.registers y) }) ∧
    (∀ w, Function.update vm.registers x w 15 = vm.registers 15) := by
  obtain ⟨pc, st, regs, ri, mem, disp, dt, so, kd⟩ := vm
  simp only at ha hb
  refine ⟨?_, ?_, ?_, ?_, ?_, rfl, rfl, rfl, rfl,
    fun w => Function.update_noteq (Ne.symm hx) w regs⟩
  · have h : (255 < regs x + regs y) ↔ (256 ≤ regs x + regs y) := by omega
    simp [execute, setVf, h]
  · have hv : (regs x + 256 - regs y) % 256 = (((regs x : ℤ) - regs y) % 256).toNat := by
      omega
    simp [execute, setVf, hv]
  · have hv : (regs y + 256 - regs x) % 256 = (((regs y : ℤ) - regs x) % 256).toNat := by
      omega
    simp [execute, setVf, hv]
  · simp [execute, setVf, Nat.and_one_is_mod, Nat.shiftRight_one]
  · have hbit : (0 < regs x &&& 128) ↔ (regs x).testBit 7 := by
      rw [show (128 : Nat) = 2 ^ 7 from rfl, Nat.and_two_pow]
      cases h : (regs x).testBit 7 <;> simp [h]
    have hsh : regs x <<< 1 = regs x * 2 := by
      rw [Nat.shiftLeft_eq]
    simp [execute, setVf, hbit, hsh]

/-- A machine with reg[0] = 200 and reg[1] = 100 (used as a concrete
instantiation for the arithmetic claims). -/
def c2_vm : VM :=
  { newVM [] with registers := fun i => if i = 0 then 200 else if i = 1 then 100 else 0 }

/-- Concrete instantiation of the arithmetic claim: 200 + 100 overflows, so
reg[0] becomes 44 and the flag register becomes 1. -/
theorem C2_witness :
    (execute 0 (.Add 0 1) c2_vm).map (fun v => (v.registers 0, v.registers 15)) =
      .ok (44, 1) := by
  have h := (C2_arithmetic_flags 0 c2_vm 0 1 (by decide) (by decide) (by decide)).1
  rw [h]
  rfl

/-! Structural lemmas about the draw helpers. -/

/-- Closed form of one pixel toggle: the display flips at exactly the
addressed coordinate, and the flags register is set to 1 when the pixel was
previously on. -/
theorem draw_pixel_eq (vm : VM) (x y : Nat) :
    draw_pixel vm x y = { vm with
      logical_display := fun a b =>
        if a = x ∧ b = y then !vm.logical_display a b else vm.logical_display a b,
      registers :=
        if vm.logical_display x y then Function.update vm.registers 15 1
        else vm.registers } := by
  unfold draw_pixel setVf
  by_cases h : vm.logical_display x y <;> simp [h]

/-- Toggling a pixel list touches only the registers and the display. -/
theorem draw_pixels_frame (ps : List (Nat × Nat)) : ∀ vm : VM,
    (draw_pixels vm ps).program_counter = vm.program_counter ∧
    (draw_pixels vm ps).stack = vm.stack ∧
    (draw_pixels vm ps).register_i = vm.register_i ∧
    (draw_pixels vm ps).memory = vm.memory ∧
    (draw_pixels vm ps).delay_timer = vm.delay_timer ∧
    (draw_pixels vm ps).sound_timer = vm.sound_timer ∧
    (draw_pixels vm ps).key_down = vm.key_down := by
  induction ps with
  | nil => intro vm; exact ⟨rfl, rfl, rfl, rfl, rfl, rfl, rfl⟩
  | cons p rest ih =>
    intro vm
    have h := ih (draw_pixel vm p.1 p.2)
    simp only [draw_pixels, List.foldl_cons] at h ⊢
    rw [draw_pixel_eq] at h ⊢
    simpa using h

/-- Every successful instruction leaves the call stack unchanged, pushes one
address after checking the depth bound, or pops one address. -/
theorem execute_stack_shape (rnd : Nat) (instr : Instruction) (vm vm2 : VM)
    (h : execute rnd instr vm = .ok vm2) :
    vm2.stack = vm.stack ∨
    (vm.stack.length < STACK_DEPTH ∧ vm2.stack.length = vm.stack.length + 1) ∨
    vm2.stack.length + 1 = vm.stack.length := by
  cases instr <;> simp only [execute] at h
  case CallSubroutine addr =>
    split at h
    · exact absurd h (by simp)
    · cases h
      right; left
      constructor
      · omega
      · rfl
  case ReturnSubroutine =>
    split at h
    · exact absurd h (by simp)
    · rename_i a rest heq
      cases h
      right; right
      simp [heq]
  case Draw vx vy n =>
    simp only [draw_shape] at h
    split at h
    · exact absurd h (by simp)
    · cases h
      left
      exact ((draw_pixels_frame _ _).2.1).trans rfl
  case IfNotEqualConst vx n =>
    cases h; left; split <;> rfl
  case IfEqualConst vx n =>
    cases h; left; split <;> rfl
  case IfNotEqual vx vy =>
    cases h; left; split <;> rfl
  case IfEqual vx vy =>
    cases h; left; split <;> rfl
  case IfNotKey vx =>
    cases h; left
    rcases vm.key_down with _ | k
    · rfl
    · dsimp only; split <;> rfl
  case IfKey vx =>
    cases h; left
    rcases vm.key_down with _ | k
    · rfl
    · dsimp only; split <;> rfl
  case WaitKey vx =>
    rcases hk : vm.key_down with _ | k <;> rw [hk] at h <;>
      rw [Except.ok.injEq] at h <;> subst h <;> (left; rfl)
  case Decimal vx =>
    split at h
    · cases h; left; rfl
    · exact absurd h (by simp)
  case StoreRegisters vx =>
    split at h
    · cases h; left; rfl
    · exact absurd h (by simp)
  case LoadRegisters vx =>
    split at h
    · cases h; left; rfl
    · exact absurd h (by simp)
  all_goals (cases h <;> (left; rfl))

/-- Reachability form of the stack invariant: a run from any machine whose
stack is within the bound keeps it within the bound. -/
theorem execList_stack_le (rnd : Nat) (l : List Instruction) :
    ∀ vm vm2 : VM, vm.stack.length ≤ STACK_DEPTH →
      execList rnd l vm = .ok vm2 → vm2.stack.length ≤ STACK_DEPTH := by
  induction l with
  | nil =>
    intro vm vm2 hle h
    cases h
    exact hle
  | cons i rest ih =>
    intro vm vm2 hle h
    simp only [execList] at h
    split at h
    · rename_i vmMid hstep
      rcases execute_stack_shape rnd i vm vmMid hstep with hs | hs | hs
      · exact ih vmMid vm2 (by rw [hs]; exact hle) h
      · exact ih vmMid vm2 (by omega) h
      · exact ih vmMid vm2 (by omega) h
    · exact absurd h (by simp)

/-! Claim C6: call stack bounds. -/

/-- Claim C6: Call on a machine whose stack already holds 16 addresses is
fatal, and otherwise pushes the already advanced program counter and jumps
to the target; Return on an empty stack is fatal, and otherwise pops the
top address into the program counter; consequently the stack depth never
exceeds 16 along any successful run from a freshly created machine, and a
17th consecutive call is fatal where 16 succeed. -/
theorem C6_stack :
    (∀ rnd (vm : VM) addr, STACK_DEPTH ≤ vm.stack.length →
      execute rnd (.CallSubroutine addr) vm = .error .stackOverflow) ∧
    (∀ rnd (vm : VM) addr, vm.stack.length < STACK_DEPTH →
      execute rnd (.CallSubroutine addr) vm = .ok { vm with
        program_counter := addr,
        stack := ((vm.program_counter + 2) % 65536) :: vm.stack }) ∧
    (∀ rnd (vm : VM), vm.stack = [] →
      execute rnd .ReturnSubroutine vm = .error .stackUnderflow) ∧
    (∀ rnd (vm : VM) a s, vm.stack = a :: s →
      execute rnd .ReturnSubroutine vm = .ok { vm with
        program_counter := a, stack := s }) ∧
    (∀ rnd l p (vm2 : VM), execList rnd l (newVM p) = .ok vm2 →
      vm2.stack.length ≤ STACK_DEPTH) ∧
    ((execList 0 (List.replicate 16 (.CallSubroutine 0x200)) (newVM [])).map
      (fun v => v.stack.length) = .ok 16) ∧
    (execList 0 (List.replicate 17 (.CallSubroutine 0x200)) (newVM []) =
      .error .stackOverflow) := by
  refine ⟨?_, ?_, ?_, ?_, ?_, rfl, rfl⟩
  · intro rnd vm addr hlen
    simp [execute, hlen]
  · intro rnd vm addr hlen
    simp [execute, Nat.not_le.mpr hlen]
  · intro rnd vm hst
    simp [execute, hst]
  · intro rnd vm a s hst
    simp [execute, hst]
  · intro rnd l p vm2 h
    exact execList_stack_le rnd l (newVM p) vm2 (by simp [newVM]) h

/-- Concrete instantiation of the stack claims: calling with a full stack of
16 addresses is the stack-overflow failure. -/
def c6_vm : VM := { newVM [] with stack := List.replicate 16 0x200 }

/-- Concrete instantiation of the stack claim at c6_vm. -/
theorem C6_witness :
    execute 0 (.CallSubroutine 0x300) c6_vm = .error .stackOverflow :=
  C6_stack.1 0 c6_vm 0x300 (by decide)

/-! Claim C7: timer behaviour. -/

/-- Any interleaving of timer-loop ticks and 8-bit timer writes keeps both
timers within 0..255. -/
theorem runTimerOps_le (ops : List TimerOp) :
    ∀ vm : VM, (∀ op ∈ ops, op.WF) →
      vm.delay_timer ≤ 255 → vm.sound_timer ≤ 255 →
      (runTimerOps vm ops).delay_timer ≤ 255 ∧
      (runTimerOps vm ops).sound_timer ≤ 255 := by
  induction ops with
  | nil => intro vm _ hd hs; exact ⟨hd, hs⟩
  | cons op rest ih =>
    intro vm hwf hd hs
    have hwf2 : ∀ o ∈ rest, o.WF := fun o ho => hwf o (List.mem_cons_of_mem _ ho)
    cases op with
    | tick =>
      simp only [runTimerOps]
      refine ih _ hwf2 ?_ ?_ <;> simp only [timerTick] <;> split <;> omega
    | setDelay v =>
      have hv : v ≤ 255 := hwf _ (List.mem_cons_self _ _)
      simp only [runTimerOps]
      exact ih _ hwf2 hv hs
    | setSound v =>
      have hv : v ≤ 255 := hwf _ (List.mem_cons_self _ _)
      simp only [runTimerOps]
      exact ih _ hwf2 hd hv

/-- Claim C7: one timer-loop iteration decrements the delay timer by exactly
1 when it is above 0 and leaves it unchanged at 0, and likewise the sound
timer, both within the same atomic critical section (and touching nothing
else of the machine); consequently, under any interleaving of ticks and
SetDelayTimer/SetSoundTimer writes of 8-bit register values, both timers
stay within 0..255; and GetDelayTimer copies the current delay-timer value
(the last one set or decremented) into reg[x]. -/
theorem C7_timers :
    (∀ vm : VM, 0 < vm.delay_timer → (timerTick vm).delay_timer = vm.delay_timer - 1) ∧
    (∀ vm : VM, vm.delay_timer = 0 → (timerTick vm).delay_timer = 0) ∧
    (∀ vm : VM, 0 < vm.sound_timer → (timerTick vm).sound_timer = vm.sound_timer - 1) ∧
    (∀ vm : VM, vm.sound_timer = 0 → (timerTick vm).sound_timer = 0) ∧
    (∀ vm : VM, (timerTick vm).program_counter = vm.program_counter ∧
      (timerTick vm).registers = vm.registers ∧
      (timerTick vm).memory = vm.memory ∧
      (timerTick vm).stack = vm.stack ∧
      (timerTick vm).key_down = vm.key_down) ∧
    (∀ (ops : List TimerOp) (vm : VM), (∀ op ∈ ops, op.WF) →
      vm.delay_timer ≤ 255 → vm.sound_timer ≤ 255 →
      (runTimerOps vm ops).delay_timer ≤ 255 ∧
      (runTimerOps vm ops).sound_timer ≤ 255) ∧
    (∀ rnd (vm : VM) x, execute rnd (.GetDelayTimer x) vm = .ok { vm with
      program_counter := (vm.program_counter + 2) % 65536,
      registers := Function.update vm.registers x vm.delay_timer }) ∧
    (∀ rnd (vm : VM) x, execute rnd (.SetDelayTimer x) vm = .ok { vm with
      program_counter := (vm.program_counter + 2) % 65536,
      delay_timer := vm.registers x }) ∧
    (∀ rnd (vm : VM) x, execute rnd (.SetSoundTimer x) vm = .ok { vm with
      program_counter := (vm.program_counter + 2) % 65536,
      sound_timer := vm.registers x }) := by
  refine ⟨?_, ?_, ?_, ?_, fun vm => ⟨rfl, rfl, rfl, rfl, rfl⟩, runTimerOps_le,
    fun rnd vm x => rfl, fun rnd vm x => rfl, fun rnd vm x => rfl⟩ <;>
    intro vm h <;> simp [timerTick, h]

/-- Concrete instantiation of the timer invariant: set the delay timer to
200 and tick twice. -/
theorem C7_witness :
    (runTimerOps (newVM []) [.setDelay 200, .tick, .tick]).delay_timer ≤ 255 ∧
    (runTimerOps (newVM []) [.setDelay 200, .tick, .tick]).sound_timer ≤ 255 := by
  refine C7_timers.2.2.2.2.2.1 _ _ ?_ (by decide) (by decide)
  intro o ho
  rcases List.mem_cons.mp ho with rfl | ho2
  · exact (by omega : (200 : Nat) ≤ 255)
  rcases List.mem_cons.mp ho2 with rfl | ho3
  · trivial
  rcases List.mem_cons.mp ho3 with rfl | ho4
  · trivial
  · cases ho4

/-! Claim C8: memory layout at machine creation. -/

/-- Pointwise value of the truncating write helper. -/
theorem writeList_getD (bytes : List Nat) :
    ∀ (mem : Nat → Nat) (i j : Nat),
      writeList mem i bytes j =
        if i ≤ j ∧ j - i < bytes.length ∧ j < MEMORY_SIZE
        then bytes.getD (j - i) 0 else mem j := by
  induction bytes with
  | nil => intro mem i j; simp [writeList]
  | cons b rest ih =>
    intro mem i j
    simp only [writeList]
    by_cases hi : i < MEMORY_SIZE
    · rw [if_pos hi, ih]
      simp only [List.length_cons]
      rcases eq_or_ne j i with hj | hj
      · subst hj
        have h1 : ¬(j + 1 ≤ j ∧ j - (j + 1) < rest.length ∧ j < MEMORY_SIZE) := by omega
        have h2 : j ≤ j ∧ j - j < rest.length + 1 ∧ j < MEMORY_SIZE :=
          ⟨le_refl j, by omega, hi⟩
        rw [if_neg h1, if_pos h2, Function.update_same]
        simp [Nat.sub_self]
      · split_ifs with h1 h2 h2
        · have hji : j - i = (j - i - 1) + 1 := by omega
          rw [hji, List.getD_cons_succ, Nat.sub_sub]
        · exfalso; omega
        · exfalso; omega
        · exact Function.update_noteq hj b mem
    · rw [if_neg hi, if_neg (by omega)]

set_option maxRecDepth 2000 in
/-- Pointwise contents of the freshly initialised memory. -/
theorem setup_memory_getD (p : List Nat) (j : Nat) :
    setup_memory p j =
      if j < 80 then FONT_SPRITES.getD j 0
      else if 0x200 ≤ j ∧ j - 0x200 < p.length ∧ j < MEMORY_SIZE
        then p.getD (j - 0x200) 0 else 0 := by
  unfold setup_memory
  rw [writeList_getD, writeList_getD]
  have hlen : FONT_SPRITES.length = 80 := by rfl
  rw [hlen]
  simp only [FONT_OFFSET, MEMORY_SIZE, Nat.sub_zero]
  split_ifs <;> first | (exfalso; omega) | rfl

/-- Claim C8: memory has exactly 4096 bytes (everything at or past 4096 is
outside the machine: never written, and reads there are fatal, see C10);
bytes 0..79 hold the 80-byte font table; for every i with 0x200 + i < 4096
the byte at 0x200 + i is p[i] verbatim, with bytes of p beyond the end of
memory truncated; and every other byte is zero. -/
theorem C8_memory_layout (p : List Nat) (i : Nat) :
    FONT_SPRITES.length = 80 ∧
    (newVM p).memory = setup_memory p ∧
    (i < 80 → setup_memory p i = FONT_SPRITES.getD i 0) ∧
    (80 ≤ i → i < 0x200 → setup_memory p i = 0) ∧
    (0x200 + i < MEMORY_SIZE → i < p.length → setup_memory p (0x200 + i) = p.getD i 0) ∧
    (0x200 + i < MEMORY_SIZE → p.length ≤ i → setup_memory p (0x200 + i) = 0) ∧
    (MEMORY_SIZE ≤ i → setup_memory p i = 0) := by
  refine ⟨by rfl, rfl, ?_, ?_, ?_, ?_, ?_⟩ <;> intro h
  · rw [setup_memory_getD, if_pos h]
  · intro h2
    rw [setup_memory_getD, if_neg (by omega), if_neg (by omega)]
  · intro h2
    have h4 : (0x200 + i) - 0x200 = i := by omega
    simp only [MEMORY_SIZE] at h
    rw [setup_memory_getD]
    simp only [MEMORY_SIZE]
    rw [if_neg (by omega), if_pos ⟨by omega, by omega, by omega⟩, h4]
  · intro h2
    simp only [MEMORY_SIZE] at h
    rw [setup_memory_getD]
    simp only [MEMORY_SIZE]
    rw [if_neg (by omega), if_neg (by omega)]
  · simp only [MEMORY_SIZE] at h
    rw [setup_memory_getD]
    simp only [MEMORY_SIZE]
    rw [if_neg (by omega), if_neg (by omega)]

/-- Concrete instantiation of the memory-layout claim: with program bytes
[7, 9], the byte at 0x201 is 9. -/
theorem C8_witness : setup_memory [7, 9] (0x200 + 1) = 9 := by
  have h := (C8_memory_layout [7, 9] 1).2.2.2.2.1 (by norm_num [MEMORY_SIZE]) (by norm_num)
  simpa using h

/-! Claim C9: the Rand instruction. -/

/-- Claim C9, code-bug side: Rand stores rnd AND NN into reg[x] and changes
nothing else beyond the program-counter advance, but the byte the code can
draw is gen_range(0, 255), whose upper bound is exclusive: for NN = 255 the
result byte 255 is never produced, so not every byte 0..255 is reachable. -/
theorem C9_rand_range (rnd : Nat) (h : randPossible rnd) (vm : VM) (x : Reg) :
    execute rnd (.Rand x 255) vm = .ok { vm with
      program_counter := (vm.program_counter + 2) % 65536,
      registers := Function.update vm.registers x (rnd &&& 255) } ∧
    rnd &&& 255 ≠ 255 := by
  refine ⟨rfl, ?_⟩
  have hle : rnd &&& 255 ≤ rnd := Nat.and_le_left
  have h2 : rnd < 255 := h
  omega

/-- Concrete instantiation of the Rand range fact at draw 0. -/
theorem C9_witness :
    execute 0 (.Rand 0 255) (newVM []) = .ok { newVM [] with
      program_counter := ((newVM []).program_counter + 2) % 65536,
      registers := Function.update (newVM []).registers 0 (0 &&& 255) } ∧
    (0 &&& 255) ≠ 255 :=
  C9_rand_range 0 (by simp [randPossible]) (newVM []) 0

/-! Claim C10: bounds checking of index-register memory accesses. -/

/-- A sprite-row fetch whose highest address reaches past the end of memory
is fatal. -/
theorem readRows_error (mem : Nat → Nat) :
    ∀ (n : Nat) (i : Nat), 0 < n → MEMORY_SIZE ≤ i + (n - 1) →
      readRows mem i n = .error .memOutOfRange := by
  intro n
  induction n with
  | zero => intro i h; omega
  | succ m ih =>
    intro i _ hge
    simp only [readRows]
    by_cases hi : i < MEMORY_SIZE
    · rw [if_pos hi, ih (i + 1) (by omega) (by omega)]
    · rw [if_neg hi]

/-- A sprite-row fetch entirely inside memory reads exactly the addressed
bytes, in order. -/
theorem readRows_ok (mem : Nat → Nat) :
    ∀ (n : Nat) (i : Nat), i + n ≤ MEMORY_SIZE →
      readRows mem i n = .ok ((List.range n).map (fun k => mem (i + k))) := by
  intro n
  induction n with
  | zero => intro i _; simp [readRows]
  | succ m ih =>
    intro i hle
    simp only [readRows]
    rw [if_pos (by omega), ih (i + 1) (by omega)]
    rw [List.range_succ_eq_map, List.map_cons, List.map_map]
    have hf : ((fun k => mem (i + k)) ∘ Nat.succ) = fun k => mem (i + 1 + k) := by
      funext k
      simp only [Function.comp]
      congr 1
      omega
    rw [hf]
    simp

/-- Pointwise value of the StoreRegisters write loop. -/
theorem store_fold_apply (regs : Reg → Nat) (idx : Nat) :
    ∀ (t : Nat), t < 16 → ∀ (mem : Nat → Nat) (j : Nat),
      ((List.range (t + 1)).foldl
        (fun m k => if h : k < 16 then Function.update m (idx + k) (regs ⟨k, h⟩) else m)
        mem) j =
      if idx ≤ j ∧ j ≤ idx + t then regs ⟨(j - idx) % 16, by omega⟩ else mem j := by
  intro t
  induction t with
  | zero =>
    intro _ mem j
    rw [show List.range 1 = [0] from rfl]
    simp only [List.foldl_cons, List.foldl_nil]
    rw [dif_pos (by omega : (0 : Nat) < 16), Function.update_apply]
    rcases eq_or_ne j (idx + 0) with hj | hj
    · rw [if_pos hj, if_pos (by omega)]
      exact congrArg regs (Fin.ext (by simp; omega))
    · rw [if_neg hj, if_neg (by omega)]
  | succ s ih =>
    intro ht mem j
    rw [List.range_succ, List.foldl_append]
    simp only [List.foldl_cons, List.foldl_nil]
    rw [dif_pos ht, Function.update_apply]
    rcases eq_or_ne j (idx + (s + 1)) with hj | hj
    · rw [if_pos hj, if_pos (by omega)]
      exact congrArg regs (Fin.ext (by simp; omega))
    · rw [if_neg hj, ih (by omega) mem j]
      split_ifs with h1 h2 h2
      · rfl
      · exfalso; omega
      · exfalso; omega
      · rfl

/-- Pointwise value of the LoadRegisters read loop. -/
theorem load_fold_apply (mem : Nat → Nat) (idx : Nat) :
    ∀ (t : Nat), t < 16 → ∀ (regs : Reg → Nat) (z : Reg),
      ((List.range (t + 1)).foldl
        (fun r k => if h : k < 16 then Function.update r ⟨k, h⟩ (mem (idx + k)) else r)
        regs) z =
      if z.val ≤ t then mem (idx + z.val) else regs z := by
  intro t
  induction t with
  | zero =>
    intro _ regs z
    rw [show List.range 1 = [0] from rfl]
    simp only [List.foldl_cons, List.foldl_nil]
    rw [dif_pos (by omega : (0 : Nat) < 16), Function.update_apply]
    by_cases hz : z.val ≤ 0
    · rw [if_pos (Fin.ext (by simp; omega)), if_pos hz]
      congr 1
      omega
    · rw [if_neg (fun he => hz (by simp [Fin.ext_iff] at he; omega)), if_neg hz]
  | succ s ih =>
    intro ht regs z
    rw [List.range_succ, List.foldl_append]
    simp only [List.foldl_cons, List.foldl_nil]
    rw [dif_pos ht, Function.update_apply]
    by_cases hz : z.val = s + 1
    · rw [if_pos (Fin.ext (by simp; omega)), if_pos (by omega)]
      congr 1
      omega
    · rw [if_neg (fun he => hz (by simp [Fin.ext_iff] at he; omega)),
        ih (by omega) regs z]
      split_ifs with h1 h2 h2
      · rfl
      · exfalso; omega
      · exfalso; omega
      · rfl

/-- Claim C10: every memory access made through the index register is bounds
checked rather than address-wrapped. For Draw sprite-row reads (index + row,
row < n), Decimal writes (index .. index+2) and StoreRegisters /
LoadRegisters copies (index .. index+x): if the index register plus the
largest required offset reaches 4096 or beyond, execution is fatal
(out-of-range indexing); under the precondition that the whole range lies
below 4096, execution succeeds and only the addressed bytes (or registers)
are read or written. -/
theorem C10_memory_bounds :
    (∀ rnd (vm : VM) x y n, 0 < n → MEMORY_SIZE ≤ vm.register_i + (n - 1) →
      execute rnd (.Draw x y n) vm = .error .memOutOfRange) ∧
    (∀ rnd (vm : VM) x y n, vm.register_i + n ≤ MEMORY_SIZE →
      ∃ vm2, execute rnd (.Draw x y n) vm = .ok vm2 ∧ vm2.memory = vm.memory) ∧
    (∀ rnd (vm : VM) x, MEMORY_SIZE ≤ vm.register_i + 2 →
      execute rnd (.Decimal x) vm = .error .memOutOfRange) ∧
    (∀ rnd (vm : VM) x, vm.register_i + 2 < MEMORY_SIZE →
      ∃ vm2, execute rnd (.Decimal x) vm = .ok vm2 ∧
        vm2.memory vm.register_i = vm.registers x / 100 ∧
        vm2.memory (vm.register_i + 1) = vm.registers x / 10 % 10 ∧
        vm2.memory (vm.register_i + 2) = vm.registers x % 10 ∧
        (∀ j, j ≠ vm.register_i → j ≠ vm.register_i + 1 → j ≠ vm.register_i + 2 →
          vm2.memory j = vm.memory j) ∧
        vm2.registers = vm.registers ∧ vm2.register_i = vm.register_i) ∧
    (∀ rnd (vm : VM) x, MEMORY_SIZE ≤ vm.register_i + x.val →
      execute rnd (.StoreRegisters x) vm = .error .memOutOfRange) ∧
    (∀ rnd (vm : VM) x, vm.register_i + x.val < MEMORY_SIZE →
      ∃ vm2, execute rnd (.StoreRegisters x) vm = .ok vm2 ∧
        (∀ k : Nat, k ≤ x.val →
          vm2.memory (vm.register_i + k) = vm.registers ⟨k % 16, by omega⟩) ∧
        (∀ j, j < vm.register_i ∨ vm.register_i + x.val < j →
          vm2.memory j = vm.memory j) ∧
        vm2.registers = vm.registers ∧ vm2.register_i = vm.register_i) ∧
    (∀ rnd (vm : VM) x, MEMORY_SIZE ≤ vm.register_i + x.val →
      execute rnd (.LoadRegisters x) vm = .error .memOutOfRange) ∧
    (∀ rnd (vm : VM) x, vm.register_i + x.val < MEMORY_SIZE →
      ∃ vm2, execute rnd (.LoadRegisters x) vm = .ok vm2 ∧
        (∀ z : Reg, z.val ≤ x.val → vm2.registers z = vm.memory (vm.register_i + z.val)) ∧
        (∀ z : Reg, x.val < z.val → vm2.registers z = vm.registers z) ∧
        vm2.memory = vm.memory ∧ vm2.register_i = vm.register_i) := by
  refine ⟨?_, ?_, ?_, ?_, ?_, ?_, ?_, ?_⟩
  · intro rnd vm x y n hn hge
    obtain ⟨pc, st, regs, ri, mem, disp, dt, so, kd⟩ := vm
    simp only [execute, draw_shape, setVf] at hge ⊢
    rw [readRows_error mem n ri hn (by simpa using hge)]
  · intro rnd vm x y n hle
    obtain ⟨pc, st, regs, ri, mem, disp, dt, so, kd⟩ := vm
    simp only [execute, draw_shape, setVf] at hle ⊢
    rw [readRows_ok mem n ri (by simpa using hle)]
    exact ⟨_, rfl, ((draw_pixels_frame _ _).2.2.2.1).trans rfl⟩
  · intro rnd vm x hge
    simp only [execute]
    rw [if_neg (by omega)]
  · intro rnd vm x hlt
    simp only [execute]
    rw [if_pos hlt]
    refine ⟨_, rfl, ?_, ?_, ?_, ?_, rfl, rfl⟩ <;> dsimp only
    · rw [Function.update_noteq (by omega), Function.update_noteq (by omega),
        Function.update_same]
    · rw [Function.update_noteq (by omega), Function.update_same]
    · rw [Function.update_same]
    · intro j hj0 hj1 hj2
      rw [Function.update_noteq hj2, Function.update_noteq hj1,
        Function.update_noteq hj0]
  · intro rnd vm x hge
    simp only [execute]
    rw [if_neg (by omega)]
  · intro rnd vm x hlt
    simp only [execute]
    rw [if_pos hlt]
    refine ⟨_, rfl, ?_, ?_, rfl, rfl⟩ <;> dsimp only
    · intro k hk
      rw [store_fold_apply vm.registers vm.register_i x.val x.isLt vm.memory
        (vm.register_i + k), if_pos (by omega)]
      exact congrArg vm.registers (Fin.ext (by simp))
    · intro j hj
      rw [store_fold_apply vm.registers vm.register_i x.val x.isLt vm.memory j,
        if_neg (by omega)]
  · intro rnd vm x hge
    simp only [execute]
    rw [if_neg (by omega)]
  · intro rnd vm x hlt
    simp only [execute]
    rw [if_pos hlt]
    refine ⟨_, rfl, ?_, ?_, rfl, rfl⟩ <;> dsimp only
    · intro z hz
      rw [load_fold_apply vm.memory vm.register_i x.val x.isLt vm.registers z,
        if_pos hz]
    · intro z hz
      rw [load_fold_apply vm.memory vm.register_i x.val x.isLt vm.registers z,
        if_neg (by omega)]

/-! Claim C3: Draw instruction semantics. -/

/-- getD over a mapped range. -/
theorem getD_map_range (f : Nat → Nat) (n j : Nat) (hj : j < n) :
    ((List.range n).map f).getD j 0 = f j := by
  rw [List.getD_eq_getD_get?, List.get?_map, List.get?_range hj]
  rfl

/-- The sprite-row mask 128 >> xo tests exactly bit 7 - xo. -/
theorem mask_testBit (row xo : Nat) (h : xo < 8) :
    (0 < row &&& (128 >>> xo)) ↔ row.testBit (7 - xo) := by
  have h128 : (128 : Nat) >>> xo = 2 ^ (7 - xo) := by
    interval_cases xo <;> rfl
  rw [h128, Nat.and_two_pow]
  cases hb : row.testBit (7 - xo) <;> simp

/-- A set mask bit forces the bit index below 8. -/
theorem mask_lt_eight (row xo : Nat) (h : 0 < row &&& (128 >>> xo)) : xo < 8 := by
  by_contra hge
  push_neg at hge
  have hz : (128 : Nat) >>> xo = 0 := by
    rw [Nat.shiftRight_eq_div_pow]
    exact Nat.div_eq_of_lt (lt_of_lt_of_le (by norm_num)
      (Nat.pow_le_pow_right (by norm_num) hge))
  rw [hz, Nat.and_zero] at h
  exact absurd h (by simp)

/-- Membership in the pixel list of one sprite row. -/
theorem mem_rowPixels (x0 y0 yo row a b : Nat) :
    (a, b) ∈ rowPixels x0 y0 yo row ↔
      ∃ xo, xo < 8 ∧ 0 < row &&& (128 >>> xo) ∧
        a = ((x0 + xo) % 256) % SCREEN_WIDTH ∧
        b = ((y0 + yo) % 256) % SCREEN_HEIGHT := by
  simp only [rowPixels, List.mem_filterMap, List.mem_range]
  constructor
  · rintro ⟨xo, hxo, hsome⟩
    by_cases hbit : 0 < row &&& (128 >>> xo)
    · rw [if_pos hbit, Option.some.injEq] at hsome
      obtain ⟨ha, hb⟩ := Prod.ext_iff.mp hsome.symm
      exact ⟨xo, hxo, hbit, ha, hb⟩
    · rw [if_neg hbit] at hsome
      cases hsome
  · rintro ⟨xo, hxo, hbit, ha, hb⟩
    refine ⟨xo, hxo, ?_⟩
    rw [if_pos hbit, ha, hb]

/-- Membership in the full sprite pixel list. -/
theorem mem_spritePixels (x0 y0 : Nat) :
    ∀ (rows : List Nat) (yo a b : Nat),
      (a, b) ∈ spritePixels x0 y0 yo rows ↔
        ∃ j, j < rows.length ∧ ∃ xo, xo < 8 ∧
          0 < (rows.getD j 0) &&& (128 >>> xo) ∧
          a = ((x0 + xo) % 256) % SCREEN_WIDTH ∧
          b = ((y0 + (yo + j)) % 256) % SCREEN_HEIGHT := by
  intro rows
  induction rows with
  | nil => intro yo a b; simp [spritePixels]
  | cons r rest ih =>
    intro yo a b
    simp only [spritePixels, List.mem_append, mem_rowPixels, ih (yo + 1),
      List.length_cons]
    constructor
    · rintro (⟨xo, hxo, hbit, ha, hb⟩ | ⟨j, hj, xo, hxo, hbit, ha, hb⟩)
      · refine ⟨0, by omega, xo, hxo, by simpa using hbit, ha, ?_⟩
        rw [hb, Nat.add_zero]
      · refine ⟨j + 1, by omega, xo, hxo, by simpa using hbit, ha, ?_⟩
        rw [hb]
        congr 2
        omega
    · rintro ⟨j, hj, xo, hxo, hbit, ha, hb⟩
      cases j with
      | zero =>
        left
        refine ⟨xo, hxo, by simpa using hbit, ha, ?_⟩
        rw [hb, Nat.add_zero]
      | succ m =>
        right
        refine ⟨m, by omega, xo, hxo, by simpa using hbit, ha, ?_⟩
        rw [hb]
        congr 2
        omega

/-- The pixels of one row are pairwise distinct. -/
theorem rowPixels_nodup (x0 y0 yo row : Nat) : (rowPixels x0 y0 yo row).Nodup := by
  unfold rowPixels
  refine List.Nodup.filterMap ?_ (List.nodup_range 8)
  intro xo1 xo2 q hq1 hq2
  rw [Option.mem_def] at hq1 hq2
  by_cases h1 : 0 < row &&& (128 >>> xo1)
  · by_cases h2 : 0 < row &&& (128 >>> xo2)
    · rw [if_pos h1, Option.some.injEq] at hq1
      rw [if_pos h2, Option.some.injEq] at hq2
      have ha : ((x0 + xo1) % 256) % SCREEN_WIDTH = ((x0 + xo2) % 256) % SCREEN_WIDTH := by
        have := hq1.trans hq2.symm
        exact congrArg Prod.fst this
      have hb1 := mask_lt_eight row xo1 h1
      have hb2 := mask_lt_eight row xo2 h2
      simp only [SCREEN_WIDTH] at ha
      rw [Nat.mod_mod_of_dvd _ (by norm_num), Nat.mod_mod_of_dvd _ (by norm_num)] at ha
      omega
    · rw [if_neg h2] at hq2
      cases hq2
  · rw [if_neg h1] at hq1
    cases hq1

/-- Pixels of different sprite rows differ in their y coordinate, so the
whole sprite pixel list is duplicate-free whenever it spans at most 32
rows. -/
theorem spritePixels_nodup (x0 y0 : Nat) :
    ∀ (rows : List Nat) (yo : Nat), rows.length + yo ≤ 32 →
      (spritePixels x0 y0 yo rows).Nodup := by
  intro rows
  induction rows with
  | nil => intro yo _; simp [spritePixels]
  | cons r rest ih =>
    intro yo hlen
    simp only [List.length_cons] at hlen
    simp only [spritePixels]
    rw [List.nodup_append]
    refine ⟨rowPixels_nodup x0 y0 yo r, ih (yo + 1) (by omega), ?_⟩
    intro q hq1 hq2
    obtain ⟨a, b⟩ := q
    rw [mem_rowPixels] at hq1
    rw [mem_spritePixels] at hq2
    obtain ⟨xo, _, _, _, hb1⟩ := hq1
    obtain ⟨j, hj, xo2, _, _, _, hb2⟩ := hq2
    simp only [SCREEN_HEIGHT] at hb1 hb2
    rw [Nat.mod_mod_of_dvd _ (by norm_num)] at hb1 hb2
    omega

/-- The claim-side hit predicate: the sprite row r (byte memory[index+r]),
bit position b counted from the most significant bit, toggles the pixel at
((reg[x]+b) mod 64, (reg[y]+r) mod 32), the register values being read
after the flag register was reset. -/
def spriteHit (vm : VM) (x y : Reg) (n : Nat) (a b : Nat) : Prop :=
  ∃ r, r < n ∧ ∃ bit, bit < 8 ∧
    (vm.memory (vm.register_i + r)).testBit (7 - bit) ∧
    a = ((setVf vm 0).registers x + bit) % 64 ∧
    b = ((setVf vm 0).registers y + r) % 32

/-- The claim-side collision predicate: some toggled pixel was previously
on. -/
def spriteCollision (vm : VM) (x y : Reg) (n : Nat) : Prop :=
  ∃ r, r < n ∧ ∃ bit, bit < 8 ∧
    (vm.memory (vm.register_i + r)).testBit (7 - bit) ∧
    vm.logical_display (((setVf vm 0).registers x + bit) % 64)
      (((setVf vm 0).registers y + r) % 32) = true

/-- Closed form of the toggle loop on a duplicate-free pixel list: every
listed pixel flips, every other pixel keeps its value, and the flags
register becomes 1 exactly when some listed pixel was previously on. -/
theorem draw_pixels_spec (ps : List (Nat × Nat)) :
    ∀ vm : VM, ps.Nodup →
      draw_pixels vm ps = { vm with
        logical_display := fun a b =>
          if (a, b) ∈ ps then !vm.logical_display a b else vm.logical_display a b,
        registers :=
          if ∃ q ∈ ps, vm.logical_display q.1 q.2 = true
          then Function.update vm.registers 15 1 else vm.registers } := by
  induction ps with
  | nil =>
    intro vm _
    simp [draw_pixels]
  | cons p rest ih =>
    intro vm hnd
    obtain ⟨hp, hnd2⟩ := List.nodup_cons.mp hnd
    have hstep : draw_pixels vm (p :: rest) = draw_pixels (draw_pixel vm p.1 p.2) rest := rfl
    rw [hstep, ih _ hnd2, draw_pixel_eq]
    dsimp only
    have hpt : ∀ q ∈ rest,
        (if q.1 = p.1 ∧ q.2 = p.2 then !vm.logical_display q.1 q.2
         else vm.logical_display q.1 q.2) = vm.logical_display q.1 q.2 := by
      intro q hq
      rw [if_neg]
      intro hc
      refine hp ?_
      have hqp : q = p := Prod.ext_iff.mpr ⟨hc.1, hc.2⟩
      rwa [hqp] at hq
    have hiff : (∃ q ∈ rest,
        (if q.1 = p.1 ∧ q.2 = p.2 then !vm.logical_display q.1 q.2
         else vm.logical_display q.1 q.2) = true) ↔
        (∃ q ∈ rest, vm.logical_display q.1 q.2 = true) := by
      constructor
      · rintro ⟨q, hq, hd⟩
        exact ⟨q, hq, by rwa [hpt q hq] at hd⟩
      · rintro ⟨q, hq, hd⟩
        exact ⟨q, hq, by rwa [hpt q hq]⟩
    refine VM.ext rfl rfl ?_ rfl rfl ?_ rfl rfl rfl
    · by_cases hdp : vm.logical_display p.1 p.2 = true
      · rw [if_pos hdp]
        rw [if_pos (show ∃ q ∈ p :: rest, vm.logical_display q.1 q.2 = true from
          ⟨p, List.mem_cons_self p rest, hdp⟩)]
        split_ifs with h
        · rw [Function.update_idem]
        · rfl
      · rw [if_neg hdp]
        have hcons : (∃ q ∈ p :: rest, vm.logical_display q.1 q.2 = true) ↔
            (∃ q ∈ rest, vm.logical_display q.1 q.2 = true) := by
          constructor
          · rintro ⟨q, hq, hd⟩
            rcases List.mem_cons.mp hq with rfl | hq2
            · exact absurd hd hdp
            · exact ⟨q, hq2, hd⟩
          · rintro ⟨q, hq, hd⟩
            exact ⟨q, List.mem_cons_of_mem p hq, hd⟩
        simp only [hiff, hcons]
    · funext a b
      dsimp only
      by_cases hab : (a, b) = p
      · have ha1 : a = p.1 := congrArg Prod.fst hab
        have hb1 : b = p.2 := congrArg Prod.snd hab
        have habr : (a, b) ∉ rest := fun hmem => hp (hab ▸ hmem)
        rw [if_neg habr, if_pos ⟨ha1, hb1⟩,
          if_pos (List.mem_cons.mpr (Or.inl hab))]
      · have hnc : ¬(a = p.1 ∧ b = p.2) := fun hc => hab (Prod.ext_iff.mpr ⟨hc.1, hc.2⟩)
        by_cases hr : (a, b) ∈ rest
        · rw [if_pos hr, if_neg hnc, if_pos (List.mem_cons_of_mem p hr)]
        · rw [if_neg hr, if_neg hnc,
            if_neg (fun hm => (List.mem_cons.mp hm).elim hab hr)]

/-- Claim C3: a draw of n sprite rows (n at most 15, rows read in bounds,
register values 8-bit) first resets the flag register to 0; each set bit b
(counted from the most significant bit) of row byte memory[index + r]
toggles the logical pixel at ((reg[x] + b) mod 64, (reg[y] + r) mod 32);
every other pixel is unchanged; the flag register ends 1 iff at least one
toggled pixel was previously on, OR-accumulated over the whole sprite, and
ends 0 otherwise; registers 0..14, memory, the stack and the index register
are unchanged (the program counter advances by 2). -/
theorem C3_draw (rnd : Nat) (vm : VM) (x y : Reg) (n : Nat)
    (hn : n ≤ 15)
    (hmem : vm.register_i + n ≤ MEMORY_SIZE)
    (hx : vm.registers x ≤ 255) (hy : vm.registers y ≤ 255) :
    ∃ vm2, execute rnd (.Draw x y n) vm = .ok vm2 ∧
      (∀ a b : Nat, spriteHit vm x y n a b →
        vm2.logical_display a b = !vm.logical_display a b) ∧
      (∀ a b : Nat, ¬spriteHit vm x y n a b →
        vm2.logical_display a b = vm.logical_display a b) ∧
      (spriteCollision vm x y n → vm2.registers 15 = 1) ∧
      (¬spriteCollision vm x y n → vm2.registers 15 = 0) ∧
      (∀ z : Reg, z ≠ 15 → vm2.registers z = vm.registers z) ∧
      vm2.memory = vm.memory ∧
      vm2.stack = vm.stack ∧
      vm2.register_i = vm.register_i ∧
      vm2.program_counter = (vm.program_counter + 2) % 65536 ∧
      vm2.delay_timer = vm.delay_timer ∧
      vm2.sound_timer = vm.sound_timer ∧
      vm2.key_down = vm.key_down := by
  obtain ⟨pc, st, regs, ri, mem, disp, dt, so, kd⟩ := vm
  simp only [spriteHit, spriteCollision, setVf] at *
  simp only [execute, draw_shape, setVf]
  rw [readRows_ok mem n ri (by simpa using hmem)]
  dsimp only
  have hlen : ((List.range n).map (fun k => mem (ri + k))).length = n := by
    simp
  have hnodup : (spritePixels (Function.update regs 15 0 x)
      (Function.update regs 15 0 y) 0 ((List.range n).map (fun k => mem (ri + k)))).Nodup := by
    refine spritePixels_nodup _ _ _ 0 ?_
    rw [hlen]
    omega
  rw [draw_pixels_spec _ _ hnodup]
  have hmem_iff : ∀ a b : Nat,
      ((a, b) ∈ spritePixels (Function.update regs 15 0 x) (Function.update regs 15 0 y)
        0 ((List.range n).map (fun k => mem (ri + k)))) ↔
      (∃ r < n, ∃ bit < 8, (mem (ri + r)).testBit (7 - bit) ∧
        a = (Function.update regs 15 0 x + bit) % 64 ∧
        b = (Function.update regs 15 0 y + r) % 32) := by
    intro a b
    rw [mem_spritePixels]
    rw [hlen]
    simp only [SCREEN_WIDTH, SCREEN_HEIGHT]
    constructor
    · rintro ⟨j, hj, xo, hxo, hbit, ha, hb⟩
      rw [getD_map_range _ _ _ hj] at hbit
      refine ⟨j, hj, xo, hxo, (mask_testBit _ _ hxo).mp hbit, ?_, ?_⟩
      · rw [ha, Nat.mod_mod_of_dvd _ (by norm_num)]
      · rw [hb, Nat.zero_add, Nat.mod_mod_of_dvd _ (by norm_num)]
    · rintro ⟨r, hr, bit, hbit8, htb, ha, hb⟩
      refine ⟨r, hr, bit, hbit8, ?_, ?_, ?_⟩
      · rw [getD_map_range _ _ _ hr]
        exact (mask_testBit _ _ hbit8).mpr htb
      · rw [ha, Nat.mod_mod_of_dvd _ (by norm_num)]
      · rw [hb, Nat.zero_add, Nat.mod_mod_of_dvd _ (by norm_num)]
  have hcol_iff : (∃ q ∈ spritePixels (Function.update regs 15 0 x)
        (Function.update regs 15 0 y) 0 ((List.range n).map (fun k => mem (ri + k))),
        disp q.1 q.2 = true) ↔
      (∃ r < n, ∃ bit < 8, (mem (ri + r)).testBit (7 - bit) ∧
        disp ((Function.update regs 15 0 x + bit) % 64)
          ((Function.update regs 15 0 y + r) % 32) = true) := by
    constructor
    · rintro ⟨⟨a, b⟩, hq, hd⟩
      obtain ⟨r, hr, bit, hbit8, htb, ha, hb⟩ := (hmem_iff a b).mp hq
      exact ⟨r, hr, bit, hbit8, htb, by rw [← ha, ← hb]; exact hd⟩
    · rintro ⟨r, hr, bit, hbit8, htb, hd⟩
      exact ⟨((Function.update regs 15 0 x + bit) % 64,
        (Function.update regs 15 0 y + r) % 32),
        (hmem_iff _ _).mpr ⟨r, hr, bit, hbit8, htb, rfl, rfl⟩, hd⟩
  refine ⟨_, rfl, ?_, ?_, ?_, ?_, ?_, rfl, rfl, rfl, rfl, rfl, rfl, rfl⟩ <;> dsimp only
  · intro a b hhit
    rw [if_pos ((hmem_iff a b).mpr hhit)]
  · intro a b hhit
    rw [if_neg (fun hm => hhit ((hmem_iff a b).mp hm))]
  · intro hc
    rw [if_pos (hcol_iff.mpr hc), Function.update_same]
  · intro hc
    rw [if_neg (fun hm => hc (hcol_iff.mp hm)), Function.update_same]
  · intro z hz
    split_ifs with h
    · rw [Function.update_noteq hz, Function.update_noteq hz]
    · rw [Function.update_noteq hz]

/-- Concrete instantiation of the draw claim: drawing the 5-row glyph at
index 0 on a fresh machine succeeds and leaves memory unchanged. -/
theorem C3_witness :
    ∃ vm2, execute 0 (.Draw 0 1 5) (newVM []) = .ok vm2 ∧
      vm2.memory = (newVM []).memory := by
  obtain ⟨vm2, hexec, _, _, _, _, _, hmem2, _⟩ :=
    C3_draw 0 (newVM []) 0 1 5 (by omega) (by decide) (by decide) (by decide)
  exact ⟨vm2, hexec, hmem2⟩

/-! Claim C4: drawing the digit-5 font glyph on a fresh machine. -/

/-- A fresh machine with reg[0] = 5 (the digit whose glyph is drawn). -/
def c4_vm : VM :=
  { newVM [] with registers := Function.update (newVM []).registers 0 5 }

/-- Run SpriteAddr (index := glyph of digit reg[0] = 5) and then draw 5
rows at (reg[1], reg[1]) = (0, 0). -/
def c4_result : Except Err VM :=
  match execute 0 (.SpriteAddr 0) c4_vm with
  | .ok v1 => execute 0 (.Draw 1 1 5) v1
  | .error e => .error e

/-- The logical display after the two instructions (all-off if a step
failed). -/
def c4_display (a b : Nat) : Bool :=
  match c4_result with
  | .ok v => v.logical_display a b
  | .error _ => false

/-- The on/off pattern asserted by the claim: row r shows byte r of the
sequence F0, 90, 10, F0, 10, F0, bit k of a byte (counted from the most
significant bit) lighting pixel (k, r). -/
def c4_claimPattern (c r : Nat) : Bool :=
  decide (r < 5) && decide (c < 8) &&
    ([0xF0, 0x90, 0x10, 0xF0, 0x10, 0xF0].getD r 0).testBit (7 - c)

/-- The pattern the machine actually produces: the canonical digit-5 glyph
bytes F0, 80, F0, 10, F0 as stored in the font table. -/
def c4_actualPattern (c r : Nat) : Bool :=
  decide (r < 5) && decide (c < 8) &&
    ([0xF0, 0x80, 0xF0, 0x10, 0xF0].getD r 0).testBit (7 - c)

/-- Claim C4 is false as stated: the claimed byte sequence says pixel (3, 1)
is on (bit 3 of 0x90), but the machine leaves it off (row 1 of the stored
glyph is 0x80). -/
theorem C4_counterexample :
    isOk c4_result = true ∧ c4_claimPattern 3 1 = true ∧ c4_display 3 1 = false :=
  ⟨rfl, rfl, rfl⟩

set_option maxRecDepth 100000 in
set_option maxHeartbeats 2000000 in
/-- Claim C4, amended: on a freshly created machine, setting the index
register to the digit-5 font glyph (SpriteAddr with reg[x] = 5) and then
drawing 5 rows at logical coordinate (0, 0) produces exactly the on/off
pattern of the byte sequence F0, 80, F0, 10, F0 (the canonical digit-5
glyph as stored in the font table) row by row, bit k of byte r (counted
from the most significant bit) on meaning pixel (k, r) is on, and no other
pixel is set. -/
theorem C4_digit5_draw :
    ∀ (c : Fin 64) (r : Fin 32), c4_display c.val r.val = c4_actualPattern c.val r.val := by
  decide

/-- A machine whose index register points at the last memory byte. -/
def c10_vm : VM := { newVM [] with register_i := 4095 }

/-- Concrete instantiation of the bounds claim: a Decimal write at index
4095 needs bytes 4095..4097 and is fatal. -/
theorem C10_witness :
    execute 0 (.Decimal 0) c10_vm = .error .memOutOfRange :=
  C10_memory_bounds.2.2.1 0 c10_vm 0 (by decide)

end Chip8
